import Mathlib

/-!
Verification of the SUUMO property scraper (`src/taxi_prediction/property.py`)
against its natural-language specification.

The Python module is shallowly embedded: HTML documents are modelled as the
structured data that BeautifulSoup queries would return (anchors, dl/table
groupings, selector results), network fetches are modelled as functions from
URLs to optional results, and the pagination loop is modelled with an explicit
fuel parameter (the Python loop runs until no next link is found).
-/

/-- ASCII whitespace characters recognised by Python's regex class used in
`normalize_text` (`re.sub(r"\s+", " ", text)`); the pages never contain the
exotic Unicode whitespace, so the ASCII set is the relevant one. -/
def isWs (c : Char) : Bool :=
  c = ' ' || c = '\t' || c = '\n' || c = '\r' || c = '\x0b' || c = '\x0c'

/-- Collapse every maximal run of whitespace characters into a single space,
mirroring `re.sub(r"\s+", " ", text)`. -/
def collapseWs : List Char → List Char
  | [] => []
  | c :: cs =>
    let rest := collapseWs cs
    if isWs c then
      match rest with
      | ' ' :: _ => rest
      | _ => ' ' :: rest
    else c :: rest

/-- Remove leading and trailing whitespace, mirroring Python `str.strip()`. -/
def stripWs (cs : List Char) : List Char :=
  ((cs.dropWhile isWs).reverse.dropWhile isWs).reverse

/-- `normalize_text(text)`: `re.sub(r"\s+", " ", text).strip()`. -/
def normalize_text (s : String) : String :=
  String.mk (stripWs (collapseWs s.data))

/-- Does `hay` start with `pat`?  (Helper for the substring check.) -/
def listStartsWith : List Char → List Char → Bool
  | _, [] => true
  | [], _ :: _ => false
  | a :: as, b :: bs => decide (a = b) && listStartsWith as bs

/-- Does `hay` contain `pat` as a contiguous sublist? -/
def listContainsSub : List Char → List Char → Bool
  | [], pat => listStartsWith [] pat
  | c :: rest, pat => listStartsWith (c :: rest) pat || listContainsSub rest pat

/-- Python's substring test `pat in hay` on strings. -/
def strContains (hay pat : String) : Bool :=
  listContainsSub hay.data pat.data

/-- The canonical output schema `COLUMNS` (URL first, then the 24 fields). -/
def COLUMNS : List String :=
  ["url",
   "物件名",
   "価格",
   "所在地",
   "交通",
   "間取り",
   "専有面積",
   "バルコニー面積",
   "築年数（築年月）",
   "階数 / 所在階",
   "向き",
   "管理費",
   "修繕積立金",
   "その他費用",
   "引渡し時期",
   "取引態様",
   "情報更新日",
   "次回更新予定日（あれば）",
   "建物構造（RC / SRC 等）",
   "総戸数",
   "駐車場",
   "用途地域",
   "土地権利",
   "管理形態 / 管理会社",
   "リフォーム（有無・内容が取れれば）"]

/-- `LABEL_MAP`: the full ordered synonym table, as an ordered association
list (Python dicts preserve insertion order, and `LABEL_MAP.items()` is
iterated in that order). -/
def LABEL_MAP : List (String × String) :=
  [("物件名", "物件名"),
   ("価格", "価格"),
   ("販売価格", "価格"),
   ("所在地", "所在地"),
   ("交通", "交通"),
   ("間取り", "間取り"),
   ("専有面積", "専有面積"),
   ("バルコニー面積", "バルコニー面積"),
   ("バルコニー", "バルコニー面積"),
   ("築年数", "築年数（築年月）"),
   ("築年月", "築年数（築年月）"),
   ("向き", "向き"),
   ("管理費", "管理費"),
   ("修繕積立金", "修繕積立金"),
   ("その他費用", "その他費用"),
   ("引渡", "引渡し時期"),
   ("引渡し", "引渡し時期"),
   ("取引態様", "取引態様"),
   ("情報更新日", "情報更新日"),
   ("次回更新日", "次回更新予定日（あれば）"),
   ("次回更新予定日", "次回更新予定日（あれば）"),
   ("構造", "建物構造（RC / SRC 等）"),
   ("建物構造", "建物構造（RC / SRC 等）"),
   ("総戸数", "総戸数"),
   ("駐車場", "駐車場"),
   ("用途地域", "用途地域"),
   ("土地権利", "土地権利"),
   ("管理形態", "管理形態 / 管理会社"),
   ("管理会社", "管理形態 / 管理会社"),
   ("リフォーム", "リフォーム（有無・内容が取れれば）"),
   ("リノベーション", "リフォーム（有無・内容が取れれば）")]

/-- A row is the Python `OrderedDict[str, Optional[str]]`: an ordered
association list from column names to optional string values. -/
abbrev Row : Type := List (String × Option String)

/-- Python dict assignment `d[k] = v`: overwrite in place when the key is
present, append at the end otherwise. -/
def dictSet (d : Row) (k : String) (v : Option String) : Row :=
  if d.any (fun kv => kv.1 = k) then
    d.map (fun kv => if kv.1 = k then (k, v) else kv)
  else d ++ [(k, v)]

/-- Python dict lookup `d[k]` (as `Option`; outer `none` means missing key). -/
def rowGet (d : Row) (k : String) : Option (Option String) :=
  (d.find? (fun kv => kv.1 = k)).map (fun kv => kv.2)

/-- `OrderedDict((col, None) for col in COLUMNS)`. -/
def emptyRow : Row :=
  COLUMNS.map (fun c => (c, (none : Option String)))

/-- The all-null placeholder row with only the URL set, built by
`scrape_suumo` on a failed detail fetch and on a parse exception. -/
def nullRow (url : String) : Row :=
  dictSet emptyRow "url" (some url)

/-- A `dl` grouping: texts of its `dt` nodes and of its `dd` nodes, in
document order (each text the result of `get_text(" ", strip=True)`). -/
structure Dl where
  dts : List String
  dds : List String
deriving DecidableEq

/-- A table row: texts of its `th` descendants and `td` descendants, in
document order.  `row.find("th")` returns the first of `ths` (an empty
element is falsy in BeautifulSoup, but it also normalizes to empty text,
so both drop the row identically). -/
structure Tr where
  ths : List String
  tds : List String
deriving DecidableEq

/-- A parsed detail page: its `dl` groupings and tables in document order,
plus the CSS-selector oracle used by `pick_first_text` (`select_one`
followed by `get_text`). -/
structure Soup where
  dls : List Dl
  tables : List (List Tr)
  sel : String → Option String

/-- Pairs contributed by one `dl`: skipped wholesale when the `dt`/`dd`
counts differ, otherwise zipped positionally, keeping pairs whose
normalized label and value are both non-empty. -/
def dlPairs (dl : Dl) : List (String × String) :=
  if dl.dts.length ≠ dl.dds.length then []
  else (dl.dts.zip dl.dds).filterMap (fun p =>
    if normalize_text p.1 ≠ "" ∧ normalize_text p.2 ≠ "" then
      some (normalize_text p.1, normalize_text p.2)
    else none)

/-- Pair contributed by one table row: `row.find("th")` / `row.find("td")`
take the FIRST `th` and `td`; the row is skipped only when one of them is
missing or normalizes to empty text. -/
def trPair (tr : Tr) : Option (String × String) :=
  match tr.ths.head?, tr.tds.head? with
  | some th, some td =>
    if normalize_text th ≠ "" ∧ normalize_text td ≠ "" then
      some (normalize_text th, normalize_text td)
    else none
  | _, _ => none

/-- `extract_pairs(soup)`: all `dl` pairs first, then all table pairs. -/
def extract_pairs (soup : Soup) : List (String × String) :=
  (soup.dls.map dlPairs).flatten ++
    (soup.tables.map (fun t => t.filterMap trPair)).flatten

/-- `pick_first_text(soup, selectors)`: first selector whose node exists and
has non-empty normalized text. -/
def pick_first_text (sel : String → Option String) : List String → Option String
  | [] => none
  | s :: rest =>
    match sel s with
    | some nodeText =>
      if normalize_text nodeText ≠ "" then some (normalize_text nodeText)
      else pick_first_text sel rest
    | none => pick_first_text sel rest

/-- Mutable state of the pair-scanning loop in `parse_detail_page`. -/
structure ScanState where
  data : Row
  floor_value : Option String
  total_floors : Option String
  management_parts : List String

/-- The ordered synonym scan: `for key, mapped in LABEL_MAP.items(): if key
in normalized_label: ... break`. -/
def synonymFind (normalized_label : String) : Option (String × String) :=
  LABEL_MAP.find? (fun kv => strContains normalized_label kv.1)

/-- One iteration of the pair loop of `parse_detail_page`. -/
def processPair (st : ScanState) (p : String × String) : ScanState :=
  if normalize_text p.1 = "所在階" ∨ normalize_text p.1 = "階数" then
    if normalize_text p.1 = "所在階" then { st with floor_value := some p.2 }
    else { st with total_floors := some p.2 }
  else if normalize_text p.1 = "管理形態" ∨ normalize_text p.1 = "管理会社" then
    { st with management_parts := st.management_parts ++ [p.2] }
  else
    match synonymFind (normalize_text p.1) with
    | some kv => { st with data := dictSet st.data kv.2 (some p.2) }
    | none => st

/-- The whole pair loop, starting from a given row with empty accumulators. -/
def scanPairs (data : Row) (pairs : List (String × String)) : ScanState :=
  pairs.foldl processPair ⟨data, none, none, []⟩

/-- Python truthiness of an optional string (`None` and `""` are falsy). -/
def truthy : Option String → Bool
  | none => false
  | some s => decide (s ≠ "")

/-- Order-preserving first-occurrence deduplication with an explicit seen
accumulator (`OrderedDict.fromkeys`). -/
def dedupFirstAux (seen : List String) : List String → List String
  | [] => []
  | x :: l =>
    if x ∈ seen then dedupFirstAux seen l
    else x :: dedupFirstAux (x :: seen) l

/-- `list(OrderedDict.fromkeys(l))`: first occurrences, in order. -/
def dedupFirst (l : List String) : List String :=
  dedupFirstAux [] l

/-- The floor combination step performed after the pair loop: `if
floor_value or total_floors: data["階数 / 所在階"] = " / ".join([v for v in
[floor_value, total_floors] if v])`. -/
def combineFloor (st : ScanState) : Row :=
  if truthy st.floor_value || truthy st.total_floors then
    dictSet st.data "階数 / 所在階"
      (some (String.intercalate " / "
        (([st.floor_value, st.total_floors].filterMap id).filter
          (fun v => v ≠ ""))))
  else st.data

/-- Both combination steps performed after the pair loop: the floor join,
then the management dedup-join. -/
def finalize (st : ScanState) : Row :=
  if st.management_parts ≠ [] then
    dictSet (combineFloor st) "管理形態 / 管理会社"
      (some (String.intercalate " / " (dedupFirst st.management_parts)))
  else combineFloor st

/-- Selector candidate list for the name field. -/
def nameSelectors : List String :=
  ["h1", ".property_view h1", ".section_h1-title", ".suumo_h1"]

/-- Selector candidate list for the price field. -/
def priceSelectors : List String :=
  [".property_view .price", ".price", ".bukkenTitle", ".property_view b"]

/-- Write the `pick_first_text` name result into the row (`if name:
data["物件名"] = name`). -/
def applyName (soup : Soup) (data : Row) : Row :=
  match pick_first_text soup.sel nameSelectors with
  | some n => dictSet data "物件名" (some n)
  | none => data

/-- Write the `pick_first_text` price result into the row (`if price:
data["価格"] = price`). -/
def applyPrice (soup : Soup) (data : Row) : Row :=
  match pick_first_text soup.sel priceSelectors with
  | some p => dictSet data "価格" (some p)
  | none => data

/-- `parse_detail_page(html, url)` on an already-parsed page: initialise
the row (all columns null, URL set), fill name and price, run the pair
scan, then the combination steps. -/
def parse_detail_page (soup : Soup) (url : String) : Row :=
  finalize (scanPairs
    (applyPrice soup (applyName soup (dictSet emptyRow "url" (some url))))
    (extract_pairs soup))

/-- Outcome of one HTTP GET: a response with a status code and body text, or
a raised `requests.RequestException`. -/
inductive FetchResult where
  | response (status : Nat) (text : String)
  | exception
deriving DecidableEq

/-- `fetch_html`: returns the body on status 200, `None` on any other
status and on a request exception. -/
def fetch_html (r : FetchResult) : Option String :=
  match r with
  | FetchResult.response status text =>
    if status = 200 then some text else none
  | FetchResult.exception => none

/-- Modelled from the spec for the refinement comparison in claim C3: "an
HTTP success status" in the standard sense, the 2xx class. -/
def specSuccessStatus (status : Nat) : Bool :=
  200 ≤ status && status < 300

/-- An anchor element: its optional `href` attribute, its visible text, and
whether it carries `rel="next"`. -/
structure Anchor where
  href : Option String
  text : String
  relNext : Bool
deriving DecidableEq

/-- A parsed listing page: its anchors in document order. -/
structure ListingHtml where
  anchors : List Anchor
deriving DecidableEq

/-- The `href`-pattern filter of `extract_detail_urls`. -/
def detailHrefPattern (href : String) : Bool :=
  strContains href "/jj/bukken/" || strContains href "/ms/" ||
    strContains href "/bukken/"

/-- `extract_detail_urls(listing_html, base_url)`: keep anchors whose href
matches a detail-path pattern, resolve against the base URL (`urljoin` is
passed in as a parameter), and deduplicate within the page keeping first
occurrences.  -/
def extract_detail_urls (urljoin : String → String → String)
    (html : ListingHtml) (base_url : String) : List String :=
  html.anchors.foldl (fun (acc : List String) a =>
    match a.href with
    | none => acc
    | some href =>
      if href = "" then acc
      else if !detailHrefPattern href then acc
      else
        let full_url := urljoin base_url href
        if full_url ∈ acc then acc else acc ++ [full_url]) []

/-- The fixed set of "next page" anchor texts. -/
def nextTexts : List String := ["次へ", "次の30件", "次のページ"]

/-- `extract_next_page_url(listing_html, base_url)`. -/
def extract_next_page_url (urljoin : String → String → String)
    (html : ListingHtml) (base_url : String) : Option String :=
  let next_link :=
    match html.anchors.find? (fun a => a.relNext) with
    | some a => some a
    | none => html.anchors.find? (fun a => normalize_text a.text ∈ nextTexts)
  match next_link with
  | none => none
  | some a =>
    match a.href with
    | none => none
    | some href => if href = "" then none else some (urljoin base_url href)

/-- The per-page accumulation step of the walk (`for url in
page_detail_urls: if url not in seen: append`); membership in the
accumulated list coincides with the Python `seen` set. -/
def addNew (acc : List String) (new : List String) : List String :=
  new.foldl (fun acc u => if u ∈ acc then acc else acc ++ [u]) acc

/-- The `while page_url:` pagination loop of `scrape_suumo`, with explicit
fuel (one unit per page fetch); a fetch failure raises, modelled as
`Except.error`. -/
def walkFrom (urljoin : String → String → String)
    (fetch : String → Option ListingHtml) :
    Nat → Option String → List String → Except String (List String)
  | _, none, acc => Except.ok acc
  | 0, some u, acc =>
    if u = "" then Except.ok acc else Except.error "out of fuel"
  | Nat.succ fuel, some u, acc =>
    if u = "" then Except.ok acc
    else
      match fetch u with
      | none => Except.error ("Failed to fetch listing page: " ++ u)
      | some html =>
        walkFrom urljoin fetch fuel (extract_next_page_url urljoin html u)
          (addNew acc (extract_detail_urls urljoin html u))

/-- The per-URL row construction in the second half of `scrape_suumo`: a
failed (or empty) detail fetch yields the all-null URL-only row, a
successful fetch is parsed.  (The `except` branch around
`parse_detail_page` builds the same all-null row; the embedded parse is
total, so that branch is unreachable here.) -/
def detailRow (fetchDetail : String → Option Soup) (url : String) : Row :=
  match fetchDetail url with
  | none => nullRow url
  | some soup => parse_detail_page soup url

/-- `scrape_suumo(listing_url)`: run the walk, fail when it raised or found
no detail URLs, otherwise build one row per collected URL in order. -/
def scrape_suumo (urljoin : String → String → String)
    (fetchListing : String → Option ListingHtml)
    (fetchDetail : String → Option Soup)
    (fuel : Nat) (listing_url : String) : Except String (List Row) :=
  match walkFrom urljoin fetchListing fuel (some listing_url) [] with
  | Except.error e => Except.error e
  | Except.ok detail_urls =>
    if detail_urls = [] then
      Except.error "No detail URLs found. The page structure may have changed."
    else Except.ok (detail_urls.map (detailRow fetchDetail))

/-- A well-formed chain of listing pages: each page's URL is non-empty and
fetches to the given content, each page's next link points at the following
page's URL, and the last page has no next link. -/
def ChainOK (urljoin : String → String → String)
    (fetch : String → Option ListingHtml) :
    List (String × ListingHtml) → Bool
  | [] => true
  | (u, h) :: rest =>
    decide (u ≠ "") && decide (fetch u = some h) &&
    (match rest with
     | [] => decide (extract_next_page_url urljoin h u = none)
     | (u2, _) :: _ => decide (extract_next_page_url urljoin h u = some u2)) &&
    ChainOK urljoin fetch rest

/-- The start URL of a chain of listing pages. -/
def chainStart (chain : List (String × ListingHtml)) : Option String :=
  chain.head?.map (fun p => p.1)

/-- All detail URLs of a chain of listing pages, page by page, with
within-page and cross-page duplicates still present. -/
def chainUrls (urljoin : String → String → String)
    (chain : List (String × ListingHtml)) : List String :=
  (chain.map (fun p => extract_detail_urls urljoin p.2 p.1)).flatten

/-! ### Helper lemmas about the row dictionary -/

theorem find?_map_set (d : Row) (k : String) (v : Option String)
    (h : d.any (fun kv => kv.1 = k) = true) :
    (d.map (fun kv => if kv.1 = k then (k, v) else kv)).find?
      (fun kv => kv.1 = k) = some (k, v) := by
  induction d with
  | nil => simp at h
  | cons a d ih =>
    by_cases ha : a.1 = k
    · simp only [List.map_cons, if_pos ha]
      exact List.find?_cons_of_pos _ (by simp)
    · simp only [List.map_cons, if_neg ha]
      rw [List.find?_cons_of_neg _ (by simpa using ha)]
      exact ih (by simpa [ha] using h)

theorem rowGet_dictSet_same (d : Row) (k : String) (v : Option String) :
    rowGet (dictSet d k v) k = some v := by
  unfold dictSet
  by_cases h : d.any (fun kv => kv.1 = k) = true
  · rw [if_pos h]
    unfold rowGet
    rw [find?_map_set d k v h]
    rfl
  · rw [if_neg h]
    unfold rowGet
    rw [List.find?_append]
    have hd : d.find? (fun kv => kv.1 = k) = none := by
      rw [List.find?_eq_none]
      intro x hx hc
      rw [List.any_eq_true] at h
      exact h ⟨x, hx, hc⟩
    rw [hd]
    simp [List.find?]

theorem find?_map_set_other (d : Row) (k k' : String) (v : Option String)
    (hne : k' ≠ k) :
    (d.map (fun kv => if kv.1 = k then (k, v) else kv)).find?
      (fun kv => kv.1 = k') = d.find? (fun kv => kv.1 = k') := by
  induction d with
  | nil => simp
  | cons a d ih =>
    by_cases ha : a.1 = k
    · simp only [List.map_cons, if_pos ha]
      rw [List.find?_cons_of_neg _ (by simp [Ne.symm hne]),
        List.find?_cons_of_neg _ (by simp [ha, Ne.symm hne]), ih]
    · simp only [List.map_cons, if_neg ha]
      by_cases ha' : a.1 = k'
      · rw [List.find?_cons_of_pos _ (by simpa using ha'),
          List.find?_cons_of_pos _ (by simpa using ha')]
      · rw [List.find?_cons_of_neg _ (by simpa using ha'),
          List.find?_cons_of_neg _ (by simpa using ha'), ih]

theorem rowGet_dictSet_other (d : Row) (k k' : String) (v : Option String)
    (hne : k' ≠ k) :
    rowGet (dictSet d k v) k' = rowGet d k' := by
  unfold dictSet rowGet
  by_cases h : d.any (fun kv => kv.1 = k) = true
  · rw [if_pos h, find?_map_set_other d k k' v hne]
  · rw [if_neg h, List.find?_append]
    have : List.find? (fun kv => kv.1 = k') [(k, v)] = none := by
      simp [List.find?, Ne.symm hne]
    rw [this, Option.or_none]

theorem keys_dictSet_mem (d : Row) (k : String) (v : Option String)
    (h : k ∈ d.map Prod.fst) :
    (dictSet d k v).map Prod.fst = d.map Prod.fst := by
  have hany : d.any (fun kv => kv.1 = k) = true := by
    rw [List.any_eq_true]
    rcases List.mem_map.mp h with ⟨kv, hkv, hfst⟩
    exact ⟨kv, hkv, by simp [hfst]⟩
  unfold dictSet
  rw [if_pos hany, List.map_map]
  refine List.map_congr_left ?_
  intro a _
  by_cases ha : a.1 = k
  · simp [ha]
  · simp [ha]

/-! ### Facts about the synonym table, provable by evaluation -/

theorem label_map_snd_mem_columns : ∀ kv ∈ LABEL_MAP, kv.2 ∈ COLUMNS := by
  decide

theorem label_map_snd_ne_floor : ∀ kv ∈ LABEL_MAP, kv.2 ≠ "階数 / 所在階" := by
  decide

theorem label_map_snd_ne_url : ∀ kv ∈ LABEL_MAP, kv.2 ≠ "url" := by
  decide

/-! ### Helper lemmas about the pair-scanning loop -/

theorem processPair_cases (st : ScanState) (p : String × String) :
    (processPair st p).data = st.data ∨
    ∃ kv, kv ∈ LABEL_MAP ∧
      (processPair st p).data = dictSet st.data kv.2 (some p.2) := by
  unfold processPair
  by_cases h1 : normalize_text p.1 = "所在階" ∨ normalize_text p.1 = "階数"
  · rw [if_pos h1]
    by_cases h2 : normalize_text p.1 = "所在階" <;> simp [h2]
  · rw [if_neg h1]
    by_cases h2 : normalize_text p.1 = "管理形態" ∨ normalize_text p.1 = "管理会社"
    · rw [if_pos h2]
      left
      rfl
    · rw [if_neg h2]
      cases hfind : synonymFind (normalize_text p.1) with
      | none => left; rfl
      | some kv =>
        right
        exact ⟨kv, List.mem_of_find?_eq_some hfind, rfl⟩

theorem processPair_rowGet_of_ne (st : ScanState) (p : String × String)
    (f : String) (h : ∀ kv ∈ LABEL_MAP, kv.2 ≠ f) :
    rowGet (processPair st p).data f = rowGet st.data f := by
  rcases processPair_cases st p with hd | ⟨kv, hkv, hd⟩
  · rw [hd]
  · rw [hd, rowGet_dictSet_other _ _ _ _ (fun hc => h kv hkv hc.symm)]

theorem foldl_processPair_rowGet_of_ne (pairs : List (String × String))
    (st : ScanState) (f : String) (h : ∀ kv ∈ LABEL_MAP, kv.2 ≠ f) :
    rowGet (pairs.foldl processPair st).data f = rowGet st.data f := by
  induction pairs generalizing st with
  | nil => rfl
  | cons p pairs ih =>
    rw [List.foldl_cons, ih (processPair st p), processPair_rowGet_of_ne st p f h]

theorem processPair_keys (st : ScanState) (p : String × String)
    (h : st.data.map Prod.fst = COLUMNS) :
    (processPair st p).data.map Prod.fst = COLUMNS := by
  rcases processPair_cases st p with hd | ⟨kv, hkv, hd⟩
  · rw [hd, h]
  · rw [hd, keys_dictSet_mem _ _ _ (by rw [h]; exact label_map_snd_mem_columns kv hkv), h]

theorem foldl_processPair_keys (pairs : List (String × String))
    (st : ScanState) (h : st.data.map Prod.fst = COLUMNS) :
    (pairs.foldl processPair st).data.map Prod.fst = COLUMNS := by
  induction pairs generalizing st with
  | nil => exact h
  | cons p pairs ih =>
    rw [List.foldl_cons]
    exact ih (processPair st p) (processPair_keys st p h)

theorem combineFloor_rowGet_other (st : ScanState) (f : String)
    (h1 : f ≠ "階数 / 所在階") :
    rowGet (combineFloor st) f = rowGet st.data f := by
  unfold combineFloor
  by_cases hf : (truthy st.floor_value || truthy st.total_floors) = true
  · rw [if_pos hf, rowGet_dictSet_other _ _ _ _ h1]
  · rw [if_neg hf]

theorem finalize_rowGet_other (st : ScanState) (f : String)
    (h1 : f ≠ "階数 / 所在階") (h2 : f ≠ "管理形態 / 管理会社") :
    rowGet (finalize st) f = rowGet st.data f := by
  unfold finalize
  by_cases hm : st.management_parts ≠ []
  · rw [if_pos hm, rowGet_dictSet_other _ _ _ _ h2,
      combineFloor_rowGet_other st f h1]
  · rw [if_neg hm, combineFloor_rowGet_other st f h1]

theorem combineFloor_keys (st : ScanState)
    (h : st.data.map Prod.fst = COLUMNS) :
    (combineFloor st).map Prod.fst = COLUMNS := by
  unfold combineFloor
  have hfloor : "階数 / 所在階" ∈ COLUMNS := by decide
  by_cases hf : (truthy st.floor_value || truthy st.total_floors) = true
  · rw [if_pos hf, keys_dictSet_mem _ _ _ (by rw [h]; exact hfloor), h]
  · rw [if_neg hf, h]

theorem finalize_keys (st : ScanState) (h : st.data.map Prod.fst = COLUMNS) :
    (finalize st).map Prod.fst = COLUMNS := by
  unfold finalize
  have hmgmt : "管理形態 / 管理会社" ∈ COLUMNS := by decide
  by_cases hm : st.management_parts ≠ []
  · rw [if_pos hm, keys_dictSet_mem _ _ _
      (by rw [combineFloor_keys st h]; exact hmgmt), combineFloor_keys st h]
  · rw [if_neg hm, combineFloor_keys st h]

/-! ### Helper lemmas about first-occurrence deduplication and the walk -/

theorem dedupFirstAux_nil (s : List String) : dedupFirstAux s [] = [] := rfl

theorem dedupFirstAux_cons (s : List String) (x : String) (l : List String) :
    dedupFirstAux s (x :: l) =
      if x ∈ s then dedupFirstAux s l else x :: dedupFirstAux (x :: s) l := rfl

theorem dedupFirstAux_congr_seen (l : List String) :
    ∀ s t : List String, (∀ y, y ∈ s ↔ y ∈ t) →
      dedupFirstAux s l = dedupFirstAux t l := by
  induction l with
  | nil => intro s t _; rfl
  | cons x l ih =>
    intro s t hst
    rw [dedupFirstAux_cons, dedupFirstAux_cons]
    by_cases hx : x ∈ s
    · rw [if_pos hx, if_pos ((hst x).mp hx)]
      exact ih s t hst
    · rw [if_neg hx, if_neg (fun hc => hx ((hst x).mpr hc))]
      refine congrArg _ (ih (x :: s) (x :: t) ?_)
      intro y
      simp only [List.mem_cons]
      exact or_congr Iff.rfl (hst y)

theorem mem_dedupFirstAux (l : List String) :
    ∀ (s : List String) (y : String),
      y ∈ dedupFirstAux s l ↔ y ∈ l ∧ y ∉ s := by
  induction l with
  | nil => intro s y; simp [dedupFirstAux_nil]
  | cons x l ih =>
    intro s y
    rw [dedupFirstAux_cons]
    by_cases hx : x ∈ s
    · rw [if_pos hx, ih]
      simp only [List.mem_cons]
      constructor
      · exact fun h => ⟨Or.inr h.1, h.2⟩
      · rintro ⟨hy | hy, hys⟩
        · subst hy; exact absurd hx hys
        · exact ⟨hy, hys⟩
    · rw [if_neg hx]
      simp only [List.mem_cons, ih]
      by_cases hyx : y = x
      · subst hyx; simp [hx]
      · simp [hyx]

theorem nodup_dedupFirstAux (l : List String) :
    ∀ s : List String, (dedupFirstAux s l).Nodup := by
  induction l with
  | nil => intro s; exact List.nodup_nil
  | cons x l ih =>
    intro s
    rw [dedupFirstAux_cons]
    by_cases hx : x ∈ s
    · rw [if_pos hx]; exact ih s
    · rw [if_neg hx, List.nodup_cons]
      refine ⟨?_, ih (x :: s)⟩
      rw [mem_dedupFirstAux]
      rintro ⟨-, hc⟩
      exact hc (List.mem_cons_self x s)

theorem addNew_eq_dedupFirstAux (l : List String) :
    ∀ acc : List String, addNew acc l = acc ++ dedupFirstAux acc l := by
  induction l with
  | nil => intro acc; simp [addNew, dedupFirstAux_nil]
  | cons x l ih =>
    intro acc
    show addNew (if x ∈ acc then acc else acc ++ [x]) l = _
    rw [dedupFirstAux_cons]
    by_cases hx : x ∈ acc
    · rw [if_pos hx, if_pos hx, ih]
    · rw [if_neg hx, if_neg hx, ih]
      have hseen : dedupFirstAux (acc ++ [x]) l = dedupFirstAux (x :: acc) l := by
        refine dedupFirstAux_congr_seen l _ _ ?_
        intro y
        simp [or_comm]
      rw [hseen, List.append_assoc]
      rfl

theorem dedupFirstAux_append (l : List String) :
    ∀ (m s t : List String), (∀ y, y ∈ t ↔ y ∈ s ∨ y ∈ l) →
      dedupFirstAux s (l ++ m) = dedupFirstAux s l ++ dedupFirstAux t m := by
  induction l with
  | nil =>
    intro m s t ht
    rw [List.nil_append, dedupFirstAux_nil, List.nil_append]
    exact dedupFirstAux_congr_seen m s t (fun y => by simpa using (ht y).symm)
  | cons x l ih =>
    intro m s t ht
    rw [List.cons_append, dedupFirstAux_cons, dedupFirstAux_cons]
    by_cases hx : x ∈ s
    · rw [if_pos hx, if_pos hx]
      refine ih m s t ?_
      intro y
      rw [ht y]
      simp only [List.mem_cons]
      constructor
      · rintro (hy | hy | hy)
        · exact Or.inl hy
        · subst hy; exact Or.inl hx
        · exact Or.inr hy
      · rintro (hy | hy)
        · exact Or.inl hy
        · exact Or.inr (Or.inr hy)
    · rw [if_neg hx, if_neg hx, List.cons_append]
      refine congrArg _ (ih m (x :: s) t ?_)
      intro y
      rw [ht y]
      simp only [List.mem_cons]
      tauto

theorem foldl_addNew_eq (lists : List (List String)) :
    ∀ acc : List String,
      lists.foldl addNew acc = acc ++ dedupFirstAux acc lists.flatten := by
  induction lists with
  | nil => intro acc; simp [dedupFirstAux_nil]
  | cons l ls ih =>
    intro acc
    rw [List.foldl_cons, ih (addNew acc l), addNew_eq_dedupFirstAux l acc,
      List.flatten_cons, List.append_assoc]
    refine congrArg _ ?_
    rw [dedupFirstAux_append l ls.flatten acc (acc ++ dedupFirstAux acc l) ?_]
    intro y
    rw [List.mem_append, mem_dedupFirstAux]
    tauto

theorem walkFrom_none (urljoin : String → String → String)
    (fetch : String → Option ListingHtml) (fuel : Nat) (acc : List String) :
    walkFrom urljoin fetch fuel none acc = Except.ok acc := by
  cases fuel with
  | zero => rfl
  | succ fuel => rfl

theorem walkFrom_zero (urljoin : String → String → String)
    (fetch : String → Option ListingHtml) (u : String) (acc : List String) :
    walkFrom urljoin fetch 0 (some u) acc =
      if u = "" then Except.ok acc else Except.error "out of fuel" := rfl

theorem walkFrom_succ (urljoin : String → String → String)
    (fetch : String → Option ListingHtml) (fuel : Nat) (u : String)
    (acc : List String) :
    walkFrom urljoin fetch (fuel + 1) (some u) acc =
      if u = "" then Except.ok acc
      else
        match fetch u with
        | none => Except.error ("Failed to fetch listing page: " ++ u)
        | some html =>
          walkFrom urljoin fetch fuel (extract_next_page_url urljoin html u)
            (addNew acc (extract_detail_urls urljoin html u)) := rfl

theorem walk_chain_ok (urljoin : String → String → String)
    (fetch : String → Option ListingHtml) :
    ∀ (chain : List (String × ListingHtml)) (acc : List String),
      ChainOK urljoin fetch chain = true →
      walkFrom urljoin fetch chain.length (chainStart chain) acc =
        Except.ok (chain.foldl
          (fun a p => addNew a (extract_detail_urls urljoin p.2 p.1)) acc) := by
  intro chain
  induction chain with
  | nil => intro acc _; rfl
  | cons ph rest ih =>
    intro acc hok
    obtain ⟨u, h⟩ := ph
    unfold ChainOK at hok
    simp only [Bool.and_eq_true, decide_eq_true_eq] at hok
    obtain ⟨⟨⟨hu, hfetch⟩, hnext⟩, hrest⟩ := hok
    show walkFrom urljoin fetch (rest.length + 1) (some u) acc = _
    rw [walkFrom_succ, if_neg hu, hfetch]
    cases rest with
    | nil =>
      simp only [decide_eq_true_eq] at hnext
      show walkFrom urljoin fetch 0 (extract_next_page_url urljoin h u)
        (addNew acc (extract_detail_urls urljoin h u)) = _
      rw [hnext, walkFrom_none]
      rfl
    | cons ph2 rest2 =>
      obtain ⟨u2, h2⟩ := ph2
      simp only [decide_eq_true_eq] at hnext
      show walkFrom urljoin fetch ((u2, h2) :: rest2).length
        (extract_next_page_url urljoin h u)
        (addNew acc (extract_detail_urls urljoin h u)) = _
      rw [hnext]
      exact ih _ hrest

theorem walk_chain_short (urljoin : String → String → String)
    (fetch : String → Option ListingHtml) :
    ∀ (chain : List (String × ListingHtml)) (acc : List String),
      ChainOK urljoin fetch chain = true → chain ≠ [] →
      walkFrom urljoin fetch (chain.length - 1) (chainStart chain) acc =
        Except.error "out of fuel" := by
  intro chain
  induction chain with
  | nil => intro acc _ hne; exact absurd rfl hne
  | cons ph rest ih =>
    intro acc hok _
    obtain ⟨u, h⟩ := ph
    unfold ChainOK at hok
    simp only [Bool.and_eq_true, decide_eq_true_eq] at hok
    obtain ⟨⟨⟨hu, hfetch⟩, hnext⟩, hrest⟩ := hok
    cases rest with
    | nil =>
      show walkFrom urljoin fetch 0 (some u) acc = _
      rw [walkFrom_zero, if_neg hu]
    | cons ph2 rest2 =>
      obtain ⟨u2, h2⟩ := ph2
      show walkFrom urljoin fetch (rest2.length + 1) (some u) acc = _
      rw [walkFrom_succ, if_neg hu, hfetch]
      simp only [decide_eq_true_eq] at hnext
      show walkFrom urljoin fetch rest2.length
        (extract_next_page_url urljoin h u)
        (addNew acc (extract_detail_urls urljoin h u)) = _
      rw [hnext]
      exact ih _ hrest (by simp)

/-! ### First-match characterisation of `List.find?` -/

theorem find?_first_index {α : Type} (p : α → Bool) :
    ∀ (l : List α) (i : Nat) (hi : i < l.length),
      p (l.get ⟨i, hi⟩) = true →
      ∃ n, ∃ hn : n < l.length, n ≤ i ∧ p (l.get ⟨n, hn⟩) = true ∧
        (∀ m, ∀ hm : m < l.length, m < n → p (l.get ⟨m, hm⟩) = false) ∧
        l.find? p = some (l.get ⟨n, hn⟩) := by
  intro l
  induction l with
  | nil => intro i hi; exact absurd hi (by simp)
  | cons a l ih =>
    intro i hi hp
    by_cases pa : p a = true
    · refine ⟨0, by simp, Nat.zero_le i, pa, ?_, ?_⟩
      · intro m hm hm0; exact absurd hm0 (Nat.not_lt_zero m)
      · exact List.find?_cons_of_pos l pa
    · cases i with
      | zero => exact absurd hp pa
      | succ i' =>
        have hi' : i' < l.length := Nat.lt_of_succ_lt_succ hi
        obtain ⟨n', hn', hle, hpn, hmin, hfind⟩ := ih i' hi' hp
        refine ⟨n' + 1, Nat.succ_lt_succ hn', Nat.succ_le_succ hle, hpn, ?_, ?_⟩
        · intro m hm hmn
          cases m with
          | zero => simpa using pa
          | succ m' =>
            exact hmin m' (Nat.lt_of_succ_lt_succ hm) (Nat.lt_of_succ_lt_succ hmn)
        · rw [List.find?_cons_of_neg l pa]
          exact hfind

/-! ### More helper lemmas about the scan and the parse pipeline -/

theorem processPair_not_special (st : ScanState) (l v : String)
    (hs1 : normalize_text l ≠ "所在階") (hs2 : normalize_text l ≠ "階数")
    (hs3 : normalize_text l ≠ "管理形態") (hs4 : normalize_text l ≠ "管理会社") :
    processPair st (l, v) =
      match synonymFind (normalize_text l) with
      | some kv => { st with data := dictSet st.data kv.2 (some v) }
      | none => st := by
  unfold processPair
  rw [if_neg (not_or.mpr ⟨hs1, hs2⟩), if_neg (not_or.mpr ⟨hs3, hs4⟩)]

theorem processPair_rowGet_skip (st : ScanState) (p : String × String)
    (f : String)
    (h : (normalize_text p.1 = "所在階" ∨ normalize_text p.1 = "階数") ∨
         (normalize_text p.1 = "管理形態" ∨ normalize_text p.1 = "管理会社") ∨
         (∀ kv, synonymFind (normalize_text p.1) = some kv → kv.2 ≠ f)) :
    rowGet (processPair st p).data f = rowGet st.data f := by
  unfold processPair
  by_cases h1 : normalize_text p.1 = "所在階" ∨ normalize_text p.1 = "階数"
  · rw [if_pos h1]
    by_cases h2 : normalize_text p.1 = "所在階" <;> simp [h2]
  · rw [if_neg h1]
    by_cases h2 : normalize_text p.1 = "管理形態" ∨ normalize_text p.1 = "管理会社"
    · rw [if_pos h2]
    · rw [if_neg h2]
      rcases h with h | h | h
      · exact absurd h h1
      · exact absurd h h2
      · cases hfind : synonymFind (normalize_text p.1) with
        | none => rfl
        | some kv =>
          exact rowGet_dictSet_other _ _ _ _ (fun hc => h kv hfind hc.symm)

theorem foldl_processPair_rowGet_skip (f : String) :
    ∀ (pairs : List (String × String)) (st : ScanState),
      (∀ p ∈ pairs,
        (normalize_text p.1 = "所在階" ∨ normalize_text p.1 = "階数") ∨
        (normalize_text p.1 = "管理形態" ∨ normalize_text p.1 = "管理会社") ∨
        (∀ kv, synonymFind (normalize_text p.1) = some kv → kv.2 ≠ f)) →
      rowGet (pairs.foldl processPair st).data f = rowGet st.data f := by
  intro pairs
  induction pairs with
  | nil => intro st _; rfl
  | cons p pairs ih =>
    intro st h
    rw [List.foldl_cons, ih (processPair st p) (fun q hq => h q (List.mem_cons_of_mem p hq)),
      processPair_rowGet_skip st p f (h p (List.mem_cons_self p pairs))]

theorem finalize_rowGet_floor (st : ScanState) :
    rowGet (finalize st) "階数 / 所在階" =
      rowGet (combineFloor st) "階数 / 所在階" := by
  unfold finalize
  by_cases hm : st.management_parts ≠ []
  · rw [if_pos hm, rowGet_dictSet_other _ _ _ _ (by decide)]
  · rw [if_neg hm]

theorem emptyRow_keys : emptyRow.map Prod.fst = COLUMNS := by
  rw [emptyRow, List.map_map]
  exact List.map_id COLUMNS

theorem applyName_keys (soup : Soup) (data : Row)
    (h : data.map Prod.fst = COLUMNS) :
    (applyName soup data).map Prod.fst = COLUMNS := by
  unfold applyName
  cases pick_first_text soup.sel nameSelectors with
  | none => exact h
  | some n =>
    rw [keys_dictSet_mem _ _ _ (by rw [h]; decide), h]

theorem applyPrice_keys (soup : Soup) (data : Row)
    (h : data.map Prod.fst = COLUMNS) :
    (applyPrice soup data).map Prod.fst = COLUMNS := by
  unfold applyPrice
  cases pick_first_text soup.sel priceSelectors with
  | none => exact h
  | some n =>
    rw [keys_dictSet_mem _ _ _ (by rw [h]; decide), h]

theorem applyName_rowGet_url (soup : Soup) (data : Row) :
    rowGet (applyName soup data) "url" = rowGet data "url" := by
  unfold applyName
  cases pick_first_text soup.sel nameSelectors with
  | none => rfl
  | some n => exact rowGet_dictSet_other _ _ _ _ (by decide)

theorem applyPrice_rowGet_url (soup : Soup) (data : Row) :
    rowGet (applyPrice soup data) "url" = rowGet data "url" := by
  unfold applyPrice
  cases pick_first_text soup.sel priceSelectors with
  | none => rfl
  | some n => exact rowGet_dictSet_other _ _ _ _ (by decide)

theorem parse_detail_page_keys (soup : Soup) (url : String) :
    (parse_detail_page soup url).map Prod.fst = COLUMNS := by
  unfold parse_detail_page
  refine finalize_keys _ ?_
  refine foldl_processPair_keys _ _ ?_
  refine applyPrice_keys _ _ ?_
  refine applyName_keys _ _ ?_
  rw [keys_dictSet_mem _ _ _ (by rw [emptyRow_keys]; decide), emptyRow_keys]

theorem parse_detail_page_rowGet_url (soup : Soup) (url : String) :
    rowGet (parse_detail_page soup url) "url" = some (some url) := by
  unfold parse_detail_page
  rw [finalize_rowGet_other _ _ (by decide) (by decide)]
  rw [show (scanPairs
      (applyPrice soup (applyName soup (dictSet emptyRow "url" (some url))))
      (extract_pairs soup)).data
    = ((extract_pairs soup).foldl processPair
        ⟨applyPrice soup (applyName soup (dictSet emptyRow "url" (some url))),
          none, none, []⟩).data from rfl]
  rw [foldl_processPair_rowGet_of_ne _ _ _ label_map_snd_ne_url]
  rw [show (ScanState.mk
      (applyPrice soup (applyName soup (dictSet emptyRow "url" (some url))))
      none none []).data
    = applyPrice soup (applyName soup (dictSet emptyRow "url" (some url)))
    from rfl]
  rw [applyPrice_rowGet_url, applyName_rowGet_url, rowGet_dictSet_same]

/-! ### Concrete example environments used by witnesses and counterexamples -/

/-- A trivial URL resolver for examples (the claims hold for every resolver,
which the embedding passes in as a parameter in place of `urljoin`). -/
def ujEx : String → String → String := fun _ href => href

/-- Example listing page 1: two detail links and a "次へ" next link. -/
def page1Ex : ListingHtml :=
  ⟨[⟨some "/bukken/a", "", false⟩, ⟨some "/bukken/b", "", false⟩,
    ⟨some "p2", "次へ", false⟩]⟩

/-- Example listing page 2: repeats one of page 1's detail links, no next
link. -/
def page2Ex : ListingHtml :=
  ⟨[⟨some "/bukken/a", "", false⟩]⟩

/-- A listing fetcher for which the second page's fetch fails. -/
def fetchFailEx : String → Option ListingHtml := fun u =>
  if u = "p1" then some page1Ex else none

/-- A listing fetcher serving both example pages. -/
def fetchOkEx : String → Option ListingHtml := fun u =>
  if u = "p1" then some page1Ex
  else if u = "p2" then some page2Ex
  else none

/-- A detail fetcher that always fails. -/
def fetchDetailEx : String → Option Soup := fun _ => none

/-- The two-page example chain. -/
def chainEx : List (String × ListingHtml) := [("p1", page1Ex), ("p2", page2Ex)]

/-- Example listing page 2 with a further next link to "p3" (used for a
failure at walk depth three). -/
def page2NextEx : ListingHtml :=
  ⟨[⟨some "/bukken/c", "", false⟩, ⟨some "p3", "次へ", false⟩]⟩

/-- A listing fetcher serving pages 1 and 2, for which the THIRD page's
fetch fails. -/
def fetchFail3Ex : String → Option ListingHtml := fun v =>
  if v = "p1" then some page1Ex
  else if v = "p2" then some page2NextEx
  else none

/-- A non-empty successful prefix of a walk that then links to the URL
`u`: every page of the chain has a non-empty URL that fetches to the given
content, each page's next link points at the following page's URL, and the
last page's next link is `u`. -/
def ChainTo (urljoin : String → String → String)
    (fetch : String → Option ListingHtml) (u : String) :
    List (String × ListingHtml) → Bool
  | [] => false
  | (u0, h0) :: rest =>
    decide (u0 ≠ "") && decide (fetch u0 = some h0) &&
    (match rest with
     | [] => decide (extract_next_page_url urljoin h0 u0 = some u)
     | (u2, _) :: _ =>
       decide (extract_next_page_url urljoin h0 u0 = some u2) &&
         ChainTo urljoin fetch u rest)

/-- After any successful prefix chain whose last page links to a URL whose
fetch fails, the walk raises, for every sufficient fuel and every
accumulator state. -/
theorem walk_chain_to_failure (urljoin : String → String → String)
    (fetch : String → Option ListingHtml) (u : String)
    (hu : u ≠ "") (hfail : fetch u = none) :
    ∀ (chain : List (String × ListingHtml)) (fuel : Nat) (acc : List String),
      ChainTo urljoin fetch u chain = true → chain.length < fuel →
      walkFrom urljoin fetch fuel (chainStart chain) acc =
        Except.error ("Failed to fetch listing page: " ++ u) := by
  intro chain
  induction chain with
  | nil =>
    intro fuel acc hc _
    simp [ChainTo] at hc
  | cons ph rest ih =>
    intro fuel acc hc hlen
    obtain ⟨u0, h0⟩ := ph
    unfold ChainTo at hc
    simp only [Bool.and_eq_true, decide_eq_true_eq] at hc
    obtain ⟨⟨hu0, hf0⟩, hnext⟩ := hc
    cases fuel with
    | zero => exact absurd hlen (Nat.not_lt_zero _)
    | succ f =>
      have hlen' : rest.length < f := Nat.lt_of_succ_lt_succ hlen
      show walkFrom urljoin fetch (f + 1) (some u0) acc = _
      rw [walkFrom_succ, if_neg hu0, hf0]
      cases rest with
      | nil =>
        simp only [decide_eq_true_eq] at hnext
        show walkFrom urljoin fetch f (extract_next_page_url urljoin h0 u0)
          (addNew acc (extract_detail_urls urljoin h0 u0)) = _
        rw [hnext]
        cases f with
        | zero => exact absurd hlen' (Nat.not_lt_zero _)
        | succ f2 => rw [walkFrom_succ, if_neg hu, hfail]
      | cons ph2 rest2 =>
        obtain ⟨u2, h2⟩ := ph2
        simp only [Bool.and_eq_true, decide_eq_true_eq] at hnext
        obtain ⟨hnext2, hrest⟩ := hnext
        show walkFrom urljoin fetch f (extract_next_page_url urljoin h0 u0)
          (addNew acc (extract_detail_urls urljoin h0 u0)) = _
        rw [hnext2]
        exact ih f _ hrest hlen'

/-! ### Claim C1 -/

/-- C1, counterexample: a crawl in which the second listing-page fetch
fails.  Page 1 was fetched fine, yielded two detail URLs and a next link to
page 2, and page 2's fetch fails — the claim predicts the walk stops there
and the crawl emits one row per collected URL, but `scrape_suumo` raises
(`RuntimeError`, modelled as `Except.error`), so the whole run aborts and
no rows at all are produced. -/
theorem C1_counterexample :
    fetchFailEx "p1" = some page1Ex ∧
    extract_detail_urls ujEx page1Ex "p1" = ["/bukken/a", "/bukken/b"] ∧
    extract_next_page_url ujEx page1Ex "p1" = some "p2" ∧
    fetchFailEx "p2" = none ∧
    scrape_suumo ujEx fetchFailEx fetchDetailEx 10 "p1" =
      Except.error "Failed to fetch listing page: p2" :=
  ⟨rfl, rfl, rfl, rfl, rfl⟩

/-- C1 (amended): for every crawl in which a listing-page fetch after the
first one fails (non-success status or network failure) — at any depth of
the walk, i.e. after any non-empty successful prefix of listing pages
whose last page links to the failing URL — the whole run aborts with a
"Failed to fetch listing page" error; the walk does NOT continue with the
detail URLs collected so far, and no rows are emitted. -/
theorem C1_mid_walk_listing_failure_aborts
    (urljoin : String → String → String)
    (fetchListing : String → Option ListingHtml)
    (fetchDetail : String → Option Soup)
    (chain : List (String × ListingHtml)) (lu u : String) (fuel : Nat)
    (hchain : ChainTo urljoin fetchListing u chain = true)
    (hstart : chainStart chain = some lu)
    (hu : u ≠ "") (hfail : fetchListing u = none)
    (hfuel : chain.length < fuel) :
    scrape_suumo urljoin fetchListing fetchDetail fuel lu =
      Except.error ("Failed to fetch listing page: " ++ u) := by
  have hw := walk_chain_to_failure urljoin fetchListing u hu hfail chain fuel
    [] hchain hfuel
  rw [hstart] at hw
  unfold scrape_suumo
  rw [hw]

/-- C1, witness: the amended theorem applied to a three-page environment —
pages 1 and 2 fetch fine, the THIRD listing fetch fails, and the whole run
aborts. -/
theorem C1_witness :
    ChainTo ujEx fetchFail3Ex "p3" [("p1", page1Ex), ("p2", page2NextEx)] =
      true ∧
    chainStart [("p1", page1Ex), ("p2", page2NextEx)] = some "p1" ∧
    ("p3" : String) ≠ "" ∧ fetchFail3Ex "p3" = none ∧
    ([("p1", page1Ex), ("p2", page2NextEx)] :
      List (String × ListingHtml)).length < 10 ∧
    scrape_suumo ujEx fetchFail3Ex fetchDetailEx 10 "p1" =
      Except.error ("Failed to fetch listing page: " ++ "p3") :=
  ⟨by rfl, rfl, by decide, rfl, by decide,
    C1_mid_walk_listing_failure_aborts ujEx fetchFail3Ex fetchDetailEx
      [("p1", page1Ex), ("p2", page2NextEx)] "p1" "p3" 10 (by rfl) rfl
      (by decide) rfl (by decide)⟩

/-! ### Claim C2 -/

/-- A table row with two label cells and one value cell. -/
def trMultiEx : Tr := ⟨["A", "B"], ["1"]⟩

/-- A detail page holding only that table row. -/
def soupC2Ex : Soup := ⟨[], [[trMultiEx]], fun _ => none⟩

/-- C2, counterexample: a table row with TWO label (`th`) cells and one
value (`td`) cell.  The claim says such a row contributes no pair, but
`extract_pairs` (via `row.find("th")`, which returns the first `th`) still
emits the pair built from the first label cell. -/
theorem C2_counterexample :
    trMultiEx.ths.length = 2 ∧ trMultiEx.tds.length = 1 ∧
    extract_pairs soupC2Ex = [("A", "1")] :=
  ⟨rfl, rfl, rfl⟩

/-- C2 (amended): for every table row, pair extraction uses the FIRST
label cell and the FIRST value cell; a row with zero label cells or zero
value cells contributes no pair, but a row with multiple label or value
cells still contributes the pair built from the first of each (provided
both normalize to non-empty text). -/
theorem C2_first_cells_used (ths tds : List String) (th td : String)
    (hth : normalize_text th ≠ "") (htd : normalize_text td ≠ "") :
    trPair ⟨[], tds⟩ = none ∧ trPair ⟨ths, []⟩ = none ∧
    trPair ⟨th :: ths, td :: tds⟩ =
      some (normalize_text th, normalize_text td) := by
  refine ⟨rfl, ?_, ?_⟩
  · cases ths with
    | nil => rfl
    | cons a l => rfl
  · show (if normalize_text th ≠ "" ∧ normalize_text td ≠ "" then
      some (normalize_text th, normalize_text td) else none) = _
    rw [if_pos ⟨hth, htd⟩]

/-- C2, witness: the amended theorem applied to concrete cell texts. -/
theorem C2_witness :
    normalize_text "A" ≠ "" ∧ normalize_text "1" ≠ "" ∧
    (trPair ⟨[], ["1"]⟩ = none ∧ trPair ⟨["A", "B"], []⟩ = none ∧
     trPair ⟨["A", "B"], ["1"]⟩ =
       some (normalize_text "A", normalize_text "1")) :=
  ⟨by decide, by decide,
    C2_first_cells_used ["B"] [] "A" "1" (by decide) (by decide)⟩

/-! ### Claim C3 -/

/-- C3, counterexample: HTTP 204 is a success status (2xx), but
`fetch_html` checks `status_code == 200` and returns no body for it. -/
theorem C3_counterexample :
    specSuccessStatus 204 = true ∧
    fetch_html (FetchResult.response 204 "body") = none :=
  ⟨rfl, rfl⟩

/-- C3 (amended): a fetch succeeds (returns the page body) if and only if
the HTTP status code equals 200 exactly; every other status — including
other 2xx success statuses — and every network failure makes that fetch a
failure. -/
theorem C3_success_is_exactly_200 (status : Nat) (text : String)
    (hne : status ≠ 200) :
    fetch_html (FetchResult.response 200 text) = some text ∧
    fetch_html (FetchResult.response status text) = none ∧
    fetch_html FetchResult.exception = none := by
  refine ⟨rfl, ?_, rfl⟩
  show (if status = 200 then some text else none) = none
  rw [if_neg hne]

/-- C3, witness: the amended theorem applied at status 204. -/
theorem C3_witness :
    (204 : Nat) ≠ 200 ∧
    (fetch_html (FetchResult.response 200 "body") = some "body" ∧
     fetch_html (FetchResult.response 204 "body") = none ∧
     fetch_html FetchResult.exception = none) :=
  ⟨by decide, C3_success_is_exactly_200 204 "body" (by decide)⟩

/-! ### Claim C4 -/

/-- C4: the synonym scan checks the table in declaration order and the
first synonym key contained in the normalized label wins.  In particular,
when the label contains the keys at positions `i < j` (with the earlier
key a substring of the later one), the field written into the row is the
one mapped from the first matching key, which is declared no later than
`i` — never the one from the later key `j` (unless they map to the same
field). -/
theorem C4_first_declared_key_wins (st : ScanState) (l v : String)
    (i j : Nat) (hi : i < LABEL_MAP.length) (hj : j < LABEL_MAP.length)
    (hij : i < j)
    (hsub : strContains ((LABEL_MAP.get ⟨j, hj⟩).1)
      ((LABEL_MAP.get ⟨i, hi⟩).1) = true)
    (hmi : strContains (normalize_text l) ((LABEL_MAP.get ⟨i, hi⟩).1) = true)
    (hmj : strContains (normalize_text l) ((LABEL_MAP.get ⟨j, hj⟩).1) = true)
    (hs1 : normalize_text l ≠ "所在階") (hs2 : normalize_text l ≠ "階数")
    (hs3 : normalize_text l ≠ "管理形態") (hs4 : normalize_text l ≠ "管理会社") :
    ∃ n, ∃ hn : n < LABEL_MAP.length, n ≤ i ∧
      strContains (normalize_text l) ((LABEL_MAP.get ⟨n, hn⟩).1) = true ∧
      (∀ m, ∀ hm : m < LABEL_MAP.length, m < n →
        strContains (normalize_text l) ((LABEL_MAP.get ⟨m, hm⟩).1) = false) ∧
      (processPair st (l, v)).data =
        dictSet st.data ((LABEL_MAP.get ⟨n, hn⟩).2) (some v) := by
  obtain ⟨n, hn, hle, hpn, hmin, hfind⟩ :=
    find?_first_index (fun kv => strContains (normalize_text l) kv.1)
      LABEL_MAP i hi hmi
  refine ⟨n, hn, hle, hpn, hmin, ?_⟩
  rw [processPair_not_special st l v hs1 hs2 hs3 hs4]
  rw [show synonymFind (normalize_text l) =
    some (LABEL_MAP.get ⟨n, hn⟩) from hfind]

/-- C4, witness: the label "販売価格" contains both the key "価格"
(position 1) and the key "販売価格" (position 2); the scan assigns via the
earlier key. -/
theorem C4_witness :
    (1 : Nat) < 2 ∧
    strContains ((LABEL_MAP.get ⟨2, by decide⟩).1)
      ((LABEL_MAP.get ⟨1, by decide⟩).1) = true ∧
    (∃ n, ∃ hn : n < LABEL_MAP.length, n ≤ 1 ∧
      strContains (normalize_text "販売価格")
        ((LABEL_MAP.get ⟨n, hn⟩).1) = true ∧
      (∀ m, ∀ hm : m < LABEL_MAP.length, m < n →
        strContains (normalize_text "販売価格")
          ((LABEL_MAP.get ⟨m, hm⟩).1) = false) ∧
      (processPair ⟨emptyRow, none, none, []⟩ ("販売価格", "5000万円")).data =
        dictSet emptyRow ((LABEL_MAP.get ⟨n, hn⟩).2) (some "5000万円")) :=
  ⟨by decide, by decide,
    C4_first_declared_key_wins ⟨emptyRow, none, none, []⟩ "販売価格"
      "5000万円" 1 2 (by decide) (by decide) (by decide) (by decide)
      (by decide) (by decide) (by decide) (by decide) (by decide) (by decide)⟩

/-! ### Claim C5 -/

/-- C5: last-write-wins for synonym-mapped fields.  If two distinct pairs
of a page's pair sequence both map via the synonym table to the same
canonical field `f`, the final row value for `f` is the later pair's
value, not the earlier one.  (`f` must not be the management field, whose
accumulated combination is written after the scan — that interaction is
claim C10; no later pair may map to `f` again, which is what "the later
pair" of the claim denotes.) -/
theorem C5_last_write_wins (data : Row)
    (pre mid post : List (String × String)) (l1 v1 l2 v2 k1 k2 f : String)
    (hf1 : synonymFind (normalize_text l1) = some (k1, f))
    (h1a : normalize_text l1 ≠ "所在階") (h1b : normalize_text l1 ≠ "階数")
    (h1c : normalize_text l1 ≠ "管理形態") (h1d : normalize_text l1 ≠ "管理会社")
    (hf2 : synonymFind (normalize_text l2) = some (k2, f))
    (h2a : normalize_text l2 ≠ "所在階") (h2b : normalize_text l2 ≠ "階数")
    (h2c : normalize_text l2 ≠ "管理形態") (h2d : normalize_text l2 ≠ "管理会社")
    (hfm : f ≠ "管理形態 / 管理会社") (hv : v1 ≠ v2)
    (hpost : ∀ p ∈ post,
      (normalize_text p.1 = "所在階" ∨ normalize_text p.1 = "階数") ∨
      (normalize_text p.1 = "管理形態" ∨ normalize_text p.1 = "管理会社") ∨
      (∀ kv, synonymFind (normalize_text p.1) = some kv → kv.2 ≠ f)) :
    rowGet (finalize (scanPairs data
        (pre ++ [(l1, v1)] ++ mid ++ [(l2, v2)] ++ post))) f =
      some (some v2) ∧
    rowGet (finalize (scanPairs data
        (pre ++ [(l1, v1)] ++ mid ++ [(l2, v2)] ++ post))) f ≠
      some (some v1) := by
  have hff : f ≠ "階数 / 所在階" := by
    intro hc
    exact label_map_snd_ne_floor (k2, f) (List.mem_of_find?_eq_some hf2) hc
  have hmain : rowGet (finalize (scanPairs data
      (pre ++ [(l1, v1)] ++ mid ++ [(l2, v2)] ++ post))) f =
      some (some v2) := by
    rw [finalize_rowGet_other _ f hff hfm]
    unfold scanPairs
    simp only [List.foldl_append, List.foldl_cons, List.foldl_nil]
    rw [foldl_processPair_rowGet_skip f post
      (processPair (List.foldl processPair
        (processPair (List.foldl processPair ⟨data, none, none, []⟩ pre)
          (l1, v1)) mid) (l2, v2)) hpost]
    rw [processPair_not_special _ l2 v2 h2a h2b h2c h2d, hf2]
    exact rowGet_dictSet_same _ f (some v2)
  refine ⟨hmain, ?_⟩
  rw [hmain]
  intro hc
  exact hv (Option.some.inj (Option.some.inj hc)).symm

/-- C5, witness: a page whose pairs are `[("価格", "1億円"), ("販売価格",
"2億円")]` — both labels map to the field "価格"; the final value is the
later pair's. -/
theorem C5_witness :
    synonymFind (normalize_text "価格") = some ("価格", "価格") ∧
    synonymFind (normalize_text "販売価格") = some ("価格", "価格") ∧
    ("1億円" : String) ≠ "2億円" ∧
    rowGet (finalize (scanPairs emptyRow
        ([] ++ [("価格", "1億円")] ++ [] ++ [("販売価格", "2億円")] ++ [])))
      "価格" = some (some "2億円") ∧
    rowGet (finalize (scanPairs emptyRow
        ([] ++ [("価格", "1億円")] ++ [] ++ [("販売価格", "2億円")] ++ [])))
      "価格" ≠ some (some "1億円") := by
  have h := C5_last_write_wins emptyRow [] [] [] "価格" "1億円" "販売価格"
    "2億円" "価格" "価格" "価格" (by decide) (by decide) (by decide)
    (by decide) (by decide) (by decide) (by decide) (by decide) (by decide)
    (by decide) (by decide) (by decide) (by intro p hp; cases hp)
  exact ⟨by decide, by decide, by decide, h.1, h.2⟩

/-! ### Claim C6 -/

/-- C6: the floor combination.  After the pair scan, if the held
floor-of-building value is "3階" and the held total-floors value is
"10階建", the canonical floor field equals "3階 / 10階建"; with only one
of the two held (and non-empty), the field equals that single value with
no separator; with neither held, the field keeps the value it had in the
initial row (null in a real parse, since the scan never writes the floor
column). -/
theorem C6_floor_combination (data : Row) (pairs : List (String × String)) :
    ((scanPairs data pairs).floor_value = some "3階" →
     (scanPairs data pairs).total_floors = some "10階建" →
     rowGet (finalize (scanPairs data pairs)) "階数 / 所在階" =
       some (some "3階 / 10階建")) ∧
    (∀ v : String, v ≠ "" →
      (scanPairs data pairs).floor_value = some v →
      (scanPairs data pairs).total_floors = none →
      rowGet (finalize (scanPairs data pairs)) "階数 / 所在階" =
        some (some v)) ∧
    (∀ v : String, v ≠ "" →
      (scanPairs data pairs).floor_value = none →
      (scanPairs data pairs).total_floors = some v →
      rowGet (finalize (scanPairs data pairs)) "階数 / 所在階" =
        some (some v)) ∧
    ((scanPairs data pairs).floor_value = none →
     (scanPairs data pairs).total_floors = none →
     rowGet (finalize (scanPairs data pairs)) "階数 / 所在階" =
       rowGet data "階数 / 所在階") := by
  refine ⟨?_, ?_, ?_, ?_⟩
  · intro h1 h2
    rw [finalize_rowGet_floor]
    unfold combineFloor
    rw [h1, h2, if_pos (by decide :
      (truthy (some "3階") || truthy (some "10階建")) = true)]
    exact rowGet_dictSet_same _ _ _
  · intro v hv h1 h2
    rw [finalize_rowGet_floor]
    unfold combineFloor
    rw [h1, h2, if_pos (by simp [truthy, hv])]
    have hjoin : (([some v, (none : Option String)].filterMap id).filter
        (fun v => v ≠ "")) = [v] := by
      simp [hv]
    rw [hjoin]
    exact rowGet_dictSet_same _ _ _
  · intro v hv h1 h2
    rw [finalize_rowGet_floor]
    unfold combineFloor
    rw [h1, h2, if_pos (by simp [truthy, hv])]
    have hjoin : ((([none, some v] : List (Option String)).filterMap id).filter
        (fun v => v ≠ "")) = [v] := by
      simp [hv]
    rw [hjoin]
    exact rowGet_dictSet_same _ _ _
  · intro h1 h2
    rw [finalize_rowGet_floor]
    unfold combineFloor
    rw [h1, h2, if_neg (by decide :
      ¬(truthy (none : Option String) || truthy (none : Option String)) = true)]
    exact foldl_processPair_rowGet_of_ne pairs ⟨data, none, none, []⟩
      "階数 / 所在階" label_map_snd_ne_floor

/-- C6, witness: a page with the two floor pairs yields the combined
value; a page with only the floor-of-building pair yields it alone; a page
with no floor pair keeps the initial row's value. -/
theorem C6_witness :
    (scanPairs emptyRow [("所在階", "3階"), ("階数", "10階建")]).floor_value =
      some "3階" ∧
    rowGet (finalize (scanPairs emptyRow [("所在階", "3階"), ("階数", "10階建")]))
      "階数 / 所在階" = some (some "3階 / 10階建") ∧
    rowGet (finalize (scanPairs emptyRow [("所在階", "3階")]))
      "階数 / 所在階" = some (some "3階") ∧
    rowGet (finalize (scanPairs emptyRow [("間取り", "2LDK")]))
      "階数 / 所在階" = rowGet emptyRow "階数 / 所在階" :=
  ⟨rfl,
    (C6_floor_combination emptyRow [("所在階", "3階"), ("階数", "10階建")]).1
      rfl rfl,
    (C6_floor_combination emptyRow [("所在階", "3階")]).2.1 "3階" (by decide)
      rfl rfl,
    (C6_floor_combination emptyRow [("間取り", "2LDK")]).2.2.2 rfl rfl⟩

/-! ### Claim C7 -/

/-- C7: the management combination deduplicates while preserving
first-occurrence order and joins with " / ": a page whose
management-labeled pairs accumulated the values ["A社", "A社", "B社"] in
that order ends with the canonical management field equal to "A社 / B社". -/
theorem C7_management_dedup_join (data : Row) (pairs : List (String × String))
    (hm : (scanPairs data pairs).management_parts = ["A社", "A社", "B社"]) :
    rowGet (finalize (scanPairs data pairs)) "管理形態 / 管理会社" =
      some (some "A社 / B社") := by
  unfold finalize
  rw [hm, if_pos (by decide : (["A社", "A社", "B社"] : List String) ≠ [])]
  exact rowGet_dictSet_same _ _ _

/-- C7, witness: a page with pairs 管理形態=A社, 管理会社=A社, 管理会社=B社
accumulates exactly ["A社", "A社", "B社"] and the final field is
"A社 / B社". -/
theorem C7_witness :
    (scanPairs emptyRow
      [("管理形態", "A社"), ("管理会社", "A社"), ("管理会社", "B社")]).management_parts =
      ["A社", "A社", "B社"] ∧
    rowGet (finalize (scanPairs emptyRow
        [("管理形態", "A社"), ("管理会社", "A社"), ("管理会社", "B社")]))
      "管理形態 / 管理会社" = some (some "A社 / B社") :=
  ⟨rfl, C7_management_dedup_join emptyRow
    [("管理形態", "A社"), ("管理会社", "A社"), ("管理会社", "B社")] rfl⟩

/-! ### Claim C8 -/

/-- C8: row-shape invariant.  Every row the program emits — the parse of a
successfully fetched detail page, the placeholder for a failed detail
fetch, and the placeholder for a parse exception (`nullRow`, the same
expression as the fetch-failure placeholder) — has exactly the canonical
column list as its keys, and its URL field holds the detail URL; and every
row of a successful `scrape_suumo` run is such a per-URL row. -/
theorem C8_row_shape (fetchDetail : String → Option Soup) (url : String) :
    ((detailRow fetchDetail url).map Prod.fst = COLUMNS ∧
     rowGet (detailRow fetchDetail url) "url" = some (some url)) ∧
    ((nullRow url).map Prod.fst = COLUMNS ∧
     rowGet (nullRow url) "url" = some (some url)) ∧
    (∀ (urljoin : String → String → String)
       (fetchListing : String → Option ListingHtml) (fuel : Nat)
       (lu : String) (rows : List Row),
       scrape_suumo urljoin fetchListing fetchDetail fuel lu =
         Except.ok rows →
       ∀ row ∈ rows, ∃ u, row = detailRow fetchDetail u) := by
  have hnull1 : (nullRow url).map Prod.fst = COLUMNS := by
    unfold nullRow
    rw [keys_dictSet_mem _ _ _ (by rw [emptyRow_keys]; decide), emptyRow_keys]
  have hnull2 : rowGet (nullRow url) "url" = some (some url) :=
    rowGet_dictSet_same _ _ _
  refine ⟨?_, ⟨hnull1, hnull2⟩, ?_⟩
  · unfold detailRow
    cases fetchDetail url with
    | none => exact ⟨hnull1, hnull2⟩
    | some soup =>
      exact ⟨parse_detail_page_keys soup url,
        parse_detail_page_rowGet_url soup url⟩
  · intro urljoin fetchListing fuel lu rows hok row hrow
    unfold scrape_suumo at hok
    split at hok
    · exact Except.noConfusion hok
    · split at hok
      · exact Except.noConfusion hok
      · have hrows := Except.ok.inj hok
        rw [← hrows] at hrow
        obtain ⟨u, _, hru⟩ := List.mem_map.mp hrow
        exact ⟨u, hru.symm⟩

/-- C8, witness: the scrape-level conjunct applied to a concrete
successful one-page run (both detail fetches fail, so both rows are
URL-only placeholder rows). -/
theorem C8_witness :
    scrape_suumo ujEx fetchOkEx fetchDetailEx 2 "p1" =
      Except.ok [nullRow "/bukken/a", nullRow "/bukken/b"] ∧
    (∀ row ∈ [nullRow "/bukken/a", nullRow "/bukken/b"],
      ∃ u, row = detailRow fetchDetailEx u) ∧
    (nullRow "/bukken/a").map Prod.fst = COLUMNS ∧
    rowGet (nullRow "/bukken/a") "url" = some (some "/bukken/a") := by
  have h := C8_row_shape fetchDetailEx "/bukken/a"
  exact ⟨rfl,
    h.2.2 ujEx fetchOkEx 2 "p1" [nullRow "/bukken/a", nullRow "/bukken/b"] rfl,
    h.2.1.1, h.2.1.2⟩

/-! ### Claim C9 -/

/-- C9: for every finite chain of listing pages whose last page has no
next link, the walk succeeds with exactly one fetch per page (fuel equal
to the page count suffices, one unit less runs out), and returns the
detail URLs of all pages with duplicates removed, each URL at the position
of its first occurrence (`dedupFirst` keeps first occurrences in order),
even when two pages link to the same detail URL. -/
theorem C9_walk_visits_all_pages (urljoin : String → String → String)
    (fetch : String → Option ListingHtml)
    (chain : List (String × ListingHtml)) (hne : chain ≠ [])
    (hok : ChainOK urljoin fetch chain = true) :
    walkFrom urljoin fetch chain.length (chainStart chain) [] =
      Except.ok (dedupFirst (chainUrls urljoin chain)) ∧
    (dedupFirst (chainUrls urljoin chain)).Nodup ∧
    (∀ u, u ∈ dedupFirst (chainUrls urljoin chain) ↔
      u ∈ chainUrls urljoin chain) ∧
    walkFrom urljoin fetch (chain.length - 1) (chainStart chain) [] =
      Except.error "out of fuel" := by
  refine ⟨?_, nodup_dedupFirstAux _ _, ?_,
    walk_chain_short urljoin fetch chain [] hok hne⟩
  · rw [walk_chain_ok urljoin fetch chain [] hok]
    have hmap : chain.foldl
        (fun a p => addNew a (extract_detail_urls urljoin p.2 p.1))
        ([] : List String) =
        (chain.map (fun p => extract_detail_urls urljoin p.2 p.1)).foldl
          addNew [] :=
      (List.foldl_map _ _ _ _).symm
    rw [hmap, foldl_addNew_eq, List.nil_append]
    rfl
  · intro u
    simp [dedupFirst, mem_dedupFirstAux]

/-- C9, witness: the two-page example chain, in which page 2 repeats one
of page 1's detail URLs; the walk returns the three collected URLs deduped
to two, in first-occurrence order, with fuel 2 sufficient and fuel 1 not. -/
theorem C9_witness :
    chainEx ≠ [] ∧
    ChainOK ujEx fetchOkEx chainEx = true ∧
    chainUrls ujEx chainEx = ["/bukken/a", "/bukken/b", "/bukken/a"] ∧
    dedupFirst (chainUrls ujEx chainEx) = ["/bukken/a", "/bukken/b"] ∧
    walkFrom ujEx fetchOkEx chainEx.length (chainStart chainEx) [] =
      Except.ok (dedupFirst (chainUrls ujEx chainEx)) ∧
    walkFrom ujEx fetchOkEx (chainEx.length - 1) (chainStart chainEx) [] =
      Except.error "out of fuel" := by
  have h := C9_walk_visits_all_pages ujEx fetchOkEx chainEx (by decide) (by rfl)
  exact ⟨by decide, by rfl, rfl, rfl, h.1, h.2.2.2⟩

/-! ### Claim C10 -/

/-- C10: classification of floor and management pairs is by EXACT equality
of the normalized label with 所在階 / 階数 / 管理形態 / 管理会社.  A pair
whose normalized label differs from all four (e.g. one that strictly
contains one of them, like 管理会社名) is neither held aside nor
accumulated — it goes through the substring synonym scan and, when a key
matches, directly overwrites the mapped row field.  Moreover the
management combination, written after the whole pair scan, overwrites
whatever such a pair wrote into the management field: whenever the
accumulation list is non-empty, the final management field equals the
deduplicated joined accumulation, for every state of the scanned row. -/
theorem C10_exact_label_classification (st : ScanState) (l v : String)
    (data : Row) (pairs : List (String × String))
    (hs1 : normalize_text l ≠ "所在階") (hs2 : normalize_text l ≠ "階数")
    (hs3 : normalize_text l ≠ "管理形態") (hs4 : normalize_text l ≠ "管理会社")
    (hparts : (scanPairs data pairs).management_parts ≠ []) :
    ((processPair st (l, v)).floor_value = st.floor_value ∧
     (processPair st (l, v)).total_floors = st.total_floors ∧
     (processPair st (l, v)).management_parts = st.management_parts ∧
     (∀ kv, synonymFind (normalize_text l) = some kv →
        (processPair st (l, v)).data = dictSet st.data kv.2 (some v))) ∧
    rowGet (finalize (scanPairs data pairs)) "管理形態 / 管理会社" =
      some (some (String.intercalate " / "
        (dedupFirst (scanPairs data pairs).management_parts))) := by
  constructor
  · rw [processPair_not_special st l v hs1 hs2 hs3 hs4]
    cases hfind : synonymFind (normalize_text l) with
    | none =>
      refine ⟨rfl, rfl, rfl, ?_⟩
      intro kv hkv
      exact Option.noConfusion hkv
    | some kv0 =>
      refine ⟨rfl, rfl, rfl, ?_⟩
      intro kv hkv
      have hkk : kv0 = kv := Option.some.inj hkv
      rw [← hkk]
  · unfold finalize
    rw [if_pos hparts]
    exact rowGet_dictSet_same _ _ _

/-- C10, witness: the label 管理会社名 strictly contains 管理会社 but is
not equal to it; its pair is not accumulated and directly overwrites the
management field; and on a page that also accumulated 管理形態=A社, the
post-scan combination overwrites the field with "A社". -/
theorem C10_witness :
    normalize_text "管理会社名" ≠ "管理会社" ∧
    strContains (normalize_text "管理会社名") "管理会社" = true ∧
    (processPair ⟨emptyRow, none, none, []⟩ ("管理会社名", "X社")).data =
      dictSet emptyRow "管理形態 / 管理会社" (some "X社") ∧
    (processPair ⟨emptyRow, none, none, []⟩
      ("管理会社名", "X社")).management_parts = [] ∧
    rowGet (finalize (scanPairs emptyRow [("管理形態", "A社")]))
      "管理形態 / 管理会社" = some (some "A社") := by
  have h := C10_exact_label_classification ⟨emptyRow, none, none, []⟩
    "管理会社名" "X社" emptyRow [("管理形態", "A社")]
    (by decide) (by decide) (by decide) (by decide) (by decide)
  refine ⟨by decide, by decide, ?_, h.1.2.2.1, h.2⟩
  exact h.1.2.2.2 ("管理会社", "管理形態 / 管理会社") (by rfl)
